import Mathlib

/-!
Verification of the rog_fan_curve library (src/rog_fan_curve/src/lib.rs).

The Rust code is shallowly embedded here.  Rust strings are modelled as
`List Char`; `u8`/`u32` values are modelled as `Nat` (byte-ness is carried
by the well-formedness predicate `Curve.Wf` where it matters).  A Rust
`panic!`/failed assertion is modelled as a distinguished result value
(`Option` result of `Curve.set_point`, the `ParseResult.panicked`
constructor of the parser), never conflated with an `Err`.
-/

/-- One step of Rust str::split: split a character list at every occurrence
of the separator.  Mirrors Rust semantics: the result is never empty, and
an empty input yields one empty piece. -/
def splitOnChar (sep : Char) : List Char → List (List Char)
  | [] => [[]]
  | ch :: rest =>
    if ch = sep then
      [] :: splitOnChar sep rest
    else
      match splitOnChar sep rest with
      | [] => [[ch]]
      | piece :: pieces => (ch :: piece) :: pieces

/-- Model of Rust str::trim: drop whitespace characters from both ends. -/
def trimChars (l : List Char) : List Char :=
  ((l.dropWhile Char.isWhitespace).reverse.dropWhile Char.isWhitespace).reverse

/-- Model of Rust str::trim_end_matches with the one-character pattern
comma: repeatedly drop a trailing comma. -/
def trimTrailingCommas (l : List Char) : List Char :=
  (l.reverse.dropWhile (fun ch => ch = ',')).reverse

/-- Model of Rust str::ends_with for a one-character pattern. -/
def endsWithChar (l : List Char) (ch : Char) : Bool :=
  l.getLast? = some ch

/-- Numeric value of an ascii digit character. -/
def digitVal (ch : Char) : Nat := ch.toNat - 48

/-- Drop one leading plus sign, as Rust integer parsing allows. -/
def stripPlus (l : List Char) : List Char :=
  match l with
  | [] => []
  | ch :: rest => if ch = '+' then rest else ch :: rest

/-- Model of Rust u8::from_str (`str::parse::<u8>()`): an optional leading
plus sign, then one or more ascii digits, and the value must fit in a byte;
anything else is a parse failure (`none`). -/
def parseU8 (l : List Char) : Option Nat :=
  let l2 := stripPlus l
  if l2 = [] then none
  else if l2.all Char.isDigit then
    let v := l2.foldl (fun acc ch => acc * 10 + digitVal ch) 0
    if v < 256 then some v else none
  else none

/-- Ascii character of a decimal digit value. -/
def digitChar (n : Nat) : Char := Char.ofNat (48 + n)

/-- Decimal digits of a number, most significant first; fuel-based so that
it computes by kernel reduction.  Returns `[]` for 0 (handled by
`natToChars`). -/
def natCharsAux : Nat → Nat → List Char
  | 0, _ => []
  | _, 0 => []
  | fuel + 1, n => natCharsAux fuel (n / 10) ++ [digitChar (n % 10)]

/-- Decimal rendering of a natural number, as Rust `format!` renders an
unsigned integer with the default (`Display`) format. -/
def natToChars (n : Nat) : List Char :=
  if n = 0 then ['0'] else natCharsAux n n

/-- Ascii character of a hexadecimal digit value (lowercase, as Rust
`{:x}` renders). -/
def hexDigitChar (n : Nat) : Char :=
  if n < 10 then Char.ofNat (48 + n) else Char.ofNat (87 + n)

/-- Hexadecimal digits, most significant first; fuel-based.  Returns `[]`
for 0 (handled by `hexDigits`). -/
def hexDigitsAux : Nat → Nat → List Char
  | 0, _ => []
  | _, 0 => []
  | fuel + 1, n => hexDigitsAux fuel (n / 16) ++ [hexDigitChar (n % 16)]

/-- Lowercase hexadecimal rendering of a natural number without padding,
as Rust `{:x}` renders it. -/
def hexDigits (n : Nat) : List Char :=
  if n = 0 then ['0'] else hexDigitsAux n n

/-- Model of Rust `format!` with spec `{:0>#010x}` as exercised by the
code: `0x`, then zero-padding up to 8 hex digits, then the digits (total
width 10 when the value fits in 32 bits; the width is a minimum). -/
def hexPad10 (n : Nat) : List Char :=
  ['0', 'x'] ++ List.replicate (8 - (hexDigits n).length) '0' ++ hexDigits n

/-- The curve data: `curve: [u8; 16]`, temperatures at indices 0..7 and
speeds at indices 8..15. -/
structure Curve where
  curve : List Nat
deriving DecidableEq, Repr

/-- Representation invariant of the Rust type `[u8; 16]`: sixteen entries,
each a byte. -/
def Curve.Wf (c : Curve) : Prop :=
  c.curve.length = 16 ∧ ∀ x ∈ c.curve, x < 256

instance (c : Curve) : Decidable c.Wf := by
  unfold Curve.Wf; infer_instance

/-- `Curve::new`: the vendor default curve. -/
def Curve.new : Curve :=
  ⟨[0x1e, 0x2d, 0x32, 0x3c, 0x46, 0x50, 0x5a, 0x64,
    0x12, 0x12, 0x12, 0x20, 0x30, 0x40, 0x64, 0x64]⟩

/-- `Curve::set_point`: `assert!(n <= 7)` then write temperature at `n`
and speed at `n + 8`.  The failed assertion (a Rust panic) is modelled as
`none`. -/
def Curve.set_point (c : Curve) (n temp speed : Nat) : Option Curve :=
  if n ≤ 7 then some ⟨(c.curve.set n temp).set (n + 8) speed⟩ else none

/-- The distinct error messages `Curve::from_config_str` can produce, one
constructor per `format!` shape, carrying the interpolated token where the
message interpolates one:
`tooManyPairs` is the message Too many pairs.,
`invalidFormat s` is the message Invalid format: s,
`missingC` is the message Tempruature must have a c,
`missingPercent` is the message Speed must have a %,
`invalidNumber s` is the message Invalid number: s,
`tooFewPairs` is the message Too few pairs. -/
inductive ParseErr
  | tooManyPairs
  | invalidFormat (pairStr : List Char)
  | missingC
  | missingPercent
  | invalidNumber (residue : List Char)
  | tooFewPairs
deriving DecidableEq, Repr

/-- Result of `Curve::from_config_str`, with a Rust panic kept distinct
from `Err`. -/
inductive ParseResult
  | panicked
  | err (e : ParseErr)
  | ok (c : Curve)
deriving DecidableEq, Repr

/-- The body of the `from_config_str` loop for one comma-separated token:
trim it, split on `:`, take the first two pieces as temperature and speed
(`Iterator::next` twice — further pieces are ignored), check the `c` and
`%` suffixes, strip them, and parse both residues as `u8`. -/
def parsePair (pair : List Char) : Except ParseErr (Nat × Nat) :=
  let pairStr := trimChars pair
  match splitOnChar ':' pairStr with
  | [] => .error (.invalidFormat pairStr)
  | [_] => .error (.invalidFormat pairStr)
  | temp :: speed :: _ =>
    if endsWithChar temp 'c' = false then .error .missingC
    else if endsWithChar speed '%' = false then .error .missingPercent
    else
      match parseU8 temp.dropLast with
      | none => .error (.invalidNumber temp.dropLast)
      | some t =>
        match parseU8 speed.dropLast with
        | none => .error (.invalidNumber speed.dropLast)
        | some s => .ok (t, s)

/-- The `from_config_str` loop over the comma-separated tokens, with the
running pair index; after the loop, fewer than 7 parsed pairs is an
error. -/
def fromTokens : Curve → Nat → List (List Char) → ParseResult
  | curve, pair_i, [] =>
    if pair_i < 7 then .err .tooFewPairs else .ok curve
  | curve, pair_i, pair :: rest =>
    if 8 ≤ pair_i then .err .tooManyPairs
    else
      match parsePair pair with
      | .error e => .err e
      | .ok (t, s) =>
        match curve.set_point pair_i t s with
        | none => .panicked
        | some curve2 => fromTokens curve2 (pair_i + 1) rest

/-- The token list `from_config_str` iterates over: trim the whole string,
drop trailing commas, split on commas. -/
def tokensOf (config_str : List Char) : List (List Char) :=
  splitOnChar ',' (trimTrailingCommas (trimChars config_str))

/-- `Curve::from_config_str`. -/
def Curve.from_config_str (config_str : List Char) : ParseResult :=
  fromTokens Curve.new 0 (tokensOf config_str)

/-- `Curve::as_config_string`: eight `<t>c:<s>%,` segments, then pop the
trailing comma. -/
def Curve.as_config_string (c : Curve) : List Char :=
  (((List.range 8).map (fun i =>
    natToChars (c.curve.getD i 0) ++ ['c', ':']
      ++ natToChars (c.curve.getD (i + 8) 0) ++ ['%', ','])).flatten).dropLast

/-- The fans. -/
inductive Fan
  | Cpu
  | Gpu
deriving DecidableEq, Repr

/-- The `check_safety` errors (index payload; `u8` in the source). -/
inductive UnsafeCurveError
  | TempOutOfRange (i : Nat)
  | SpeedTooLow (i : Nat)
deriving DecidableEq, Repr

/-- The `min_speed` table of `check_safety`.  The final catch-all models
the `unreachable!` arm, which the loop (indices 0..7) never hits. -/
def minSpeedFor (fan : Fan) (i : Nat) : Nat :=
  match i with
  | 0 | 1 | 2 | 3 => 0
  | 4 => match fan with | .Cpu => 31 | .Gpu => 34
  | 5 => match fan with | .Cpu => 49 | .Gpu => 51
  | 6 | 7 => match fan with | .Cpu => 56 | .Gpu => 61
  | _ => 0

/-- The `check_safety` loop, threading `last_speed` exactly as the source
does. -/
def checkSafetyGo (c : Curve) (fan : Fan) : Nat → List Nat → Except UnsafeCurveError Unit
  | _, [] => .ok ()
  | last_speed, i :: rest =>
    let temp := c.curve.getD i 0
    let speed := c.curve.getD (i + 8) 0
    let min_temp := i * 10 + 30
    let max_temp := i * 10 + 39
    let min_speed := minSpeedFor fan i
    if temp < min_temp ∨ max_temp < temp then .error (.TempOutOfRange i)
    else if speed < min_speed ∨ speed < last_speed then .error (.SpeedTooLow i)
    else checkSafetyGo c fan speed rest

/-- `Curve::check_safety`. -/
def Curve.check_safety (c : Curve) (fan : Fan) : Except UnsafeCurveError Unit :=
  checkSafetyGo c fan 0 (List.range 8)

/-- The boards. -/
inductive Board
  | Ga401
deriving DecidableEq, Repr

/-- `Board::from_name`: exact match against the closed name set. -/
def Board.from_name (name : List Char) : Option Board :=
  if name = ['G', 'A', '4', '0', '1', 'I', 'V'] then some Board.Ga401 else none

/-- `Fan::address`. -/
def Fan.address : Fan → Option Nat
  | Fan.Cpu => some 0x40
  | Fan.Gpu => some 0x44

/-- Model of `chunks_exact(4)`: the groups of exactly four consecutive
entries (any shorter remainder is dropped). -/
def chunksExact4 : List Nat → List (List Nat)
  | b0 :: b1 :: b2 :: b3 :: rest => [b0, b1, b2, b3] :: chunksExact4 rest
  | _ => []

/-- One parameter word of `make_command`: the four chunk bytes assembled
little-endian (`b0 + (b1 << 8) + (b2 << 16) + (b3 << 24)`). -/
def wordOfChunk (bytes : List Nat) : Nat :=
  bytes.getD 0 0 + bytes.getD 1 0 * 2 ^ 8 + bytes.getD 2 0 * 2 ^ 16
    + bytes.getD 3 0 * 2 ^ 24

/-- The fixed method-path literal of `make_command`, a backslash then
`_SB.PCI0.SBRG.EC0.SUFC` and a trailing space. -/
def cmdMethodPath : List Char :=
  ['\\', '_', 'S', 'B', '.', 'P', 'C', 'I', '0', '.', 'S', 'B', 'R', 'G',
   '.', 'E', 'C', '0', '.', 'S', 'U', 'F', 'C', ' ']

/-- `make_command`: the method path, one `{:0>#010x} ` rendering per
4-byte chunk, then the fan address as unpadded `{:#x}`. -/
def make_command (c : Curve) (fan : Nat) : List Char :=
  cmdMethodPath
    ++ ((chunksExact4 c.curve).map (fun chunk => hexPad10 (wordOfChunk chunk) ++ [' '])).flatten
    ++ ['0', 'x'] ++ hexDigits fan

/-- Word `j` of a curve as `make_command` computes it: bytes `4 j` to
`4 j + 3` assembled little-endian. -/
def curveWord (c : Curve) (j : Nat) : Nat :=
  c.curve.getD (4 * j) 0 + c.curve.getD (4 * j + 1) 0 * 2 ^ 8
    + c.curve.getD (4 * j + 2) 0 * 2 ^ 16 + c.curve.getD (4 * j + 3) 0 * 2 ^ 24

instance {ε α : Type} [DecidableEq ε] [DecidableEq α] : DecidableEq (Except ε α) := fun x y =>
  match x, y with
  | .error a, .error b =>
    if h : a = b then .isTrue (by rw [h]) else .isFalse (by simp [h])
  | .error _, .ok _ => .isFalse (by simp)
  | .ok _, .error _ => .isFalse (by simp)
  | .ok a, .ok b =>
    if h : a = b then .isTrue (by rw [h]) else .isFalse (by simp [h])


/-! ### Helper lemmas about `List.set` and `List.getD` -/

theorem getD_set_self (l : List Nat) (n a : Nat) (h : n < l.length) :
    (l.set n a).getD n 0 = a := by
  rw [List.getD_eq_getElem _ _ (by simpa using h)]
  exact List.getElem_set_self _

theorem getD_set_ne (l : List Nat) (n m a : Nat) (h : n ≠ m) :
    (l.set n a).getD m 0 = l.getD m 0 := by
  simp [List.getD_eq_getElem?_getD, List.getElem?_set_ne h]

/-! ### Claims C2, C7, C8, C9, C10 -/

/-- C2: on the 16-byte buffer of the repository's own `test_make_command`
test and fan address `0x40`, `make_command` produces exactly the expected
command string: the fixed method path, the four 16-byte-buffer words
assembled little-endian and rendered as zero-padded 8-digit hex literals,
and the unpadded hex fan address. -/
theorem claim_C2_make_command_bytes :
    make_command ⟨[0x1e, 0x2d, 0x32, 0x3c, 0x46, 0x50, 0x5a, 0x64,
                   0x00, 0x01, 0x04, 0x04, 0x13, 0x40, 0x64, 0x64]⟩ 0x40 =
      ['\\', '_', 'S', 'B', '.', 'P', 'C', 'I', '0', '.', 'S', 'B', 'R', 'G',
       '.', 'E', 'C', '0', '.', 'S', 'U', 'F', 'C', ' ',
       '0', 'x', '3', 'c', '3', '2', '2', 'd', '1', 'e', ' ',
       '0', 'x', '6', '4', '5', 'a', '5', '0', '4', '6', ' ',
       '0', 'x', '0', '4', '0', '4', '0', '1', '0', '0', ' ',
       '0', 'x', '6', '4', '6', '4', '4', '0', '1', '3', ' ',
       '0', 'x', '4', '0'] := by
  decide

/-- C7: `set_point n temp speed` on an index `n ≤ 7` succeeds, writes the
temperature at buffer position `n` and the speed at position `n + 8`, and
leaves every other buffer position unchanged. -/
theorem claim_C7_set_point_frame (c : Curve) (n temp speed : Nat)
    (hn : n ≤ 7) (hlen : c.curve.length = 16) :
    ∃ c2, c.set_point n temp speed = some c2 ∧
      c2.curve.length = 16 ∧
      c2.curve.getD n 0 = temp ∧
      c2.curve.getD (n + 8) 0 = speed ∧
      ∀ m < 16, m ≠ n → m ≠ n + 8 → c2.curve.getD m 0 = c.curve.getD m 0 := by
  refine ⟨⟨(c.curve.set n temp).set (n + 8) speed⟩, by simp [Curve.set_point, hn], ?_, ?_, ?_, ?_⟩
  · simp [hlen]
  · rw [getD_set_ne _ _ _ _ (by omega), getD_set_self _ _ _ (by omega)]
  · exact getD_set_self _ _ _ (by simp [hlen]; omega)
  · intro m _ hm1 hm2
    rw [getD_set_ne _ _ _ _ (by omega), getD_set_ne _ _ _ _ (by omega)]

/-- C7 witness: the frame property at a concrete curve and index. -/
theorem claim_C7_witness :
    ∃ c2, Curve.new.set_point 3 120 55 = some c2 ∧
      c2.curve.length = 16 ∧
      c2.curve.getD 3 0 = 120 ∧
      c2.curve.getD 11 0 = 55 ∧
      ∀ m < 16, m ≠ 3 → m ≠ 11 → c2.curve.getD m 0 = Curve.new.curve.getD m 0 :=
  claim_C7_set_point_frame Curve.new 3 120 55 (by decide) (by decide)

/-- C8: `set_point` rejects (panics on, modelled as `none`) every index
above 7, and always succeeds when the index is at most 7. -/
theorem claim_C8_set_point_guard (c : Curve) (n temp speed : Nat) :
    (7 < n → c.set_point n temp speed = none) ∧
    (n ≤ 7 → ∃ c2, c.set_point n temp speed = some c2) := by
  constructor
  · intro h
    have hn : ¬ n ≤ 7 := by omega
    simp [Curve.set_point, hn]
  · intro h
    exact ⟨⟨(c.curve.set n temp).set (n + 8) speed⟩, by simp [Curve.set_point, h]⟩

/-- C8 witness: the guard at concrete indices 8 (rejected) and 7
(accepted). -/
theorem claim_C8_witness :
    Curve.new.set_point 8 10 10 = none ∧
      ∃ c2, Curve.new.set_point 7 10 10 = some c2 :=
  ⟨(claim_C8_set_point_guard Curve.new 8 10 10).1 (by decide),
   (claim_C8_set_point_guard Curve.new 7 10 10).2 (by decide)⟩

/-- C9: `Board::from_name` succeeds exactly on the string GA401IV, and
`Fan::address` returns `0x40` for the Cpu fan and `0x44` for the Gpu fan;
in particular neither lookup ever panics. -/
theorem claim_C9_board_fan_lookup :
    Board.from_name ['G', 'A', '4', '0', '1', 'I', 'V'] = some Board.Ga401 ∧
    (∀ name, name ≠ ['G', 'A', '4', '0', '1', 'I', 'V'] → Board.from_name name = none) ∧
    Fan.address Fan.Cpu = some 0x40 ∧
    Fan.address Fan.Gpu = some 0x44 := by
  refine ⟨rfl, ?_, rfl, rfl⟩
  intro name h
  simp [Board.from_name, h]

/-- C9 witness: the negative lookup branch at a concrete unknown name. -/
theorem claim_C9_witness :
    Board.from_name ['G', 'A', '4', '0', '2'] = none :=
  claim_C9_board_fan_lookup.2.1 ['G', 'A', '4', '0', '2'] (by decide)

/-- C10: the vendor default curve `Curve::new` passes `check_safety` for
both fans. -/
theorem claim_C10_default_curve_safe :
    Curve.new.check_safety Fan.Cpu = .ok () ∧
    Curve.new.check_safety Fan.Gpu = .ok () := by
  decide

/-! ### Claim C4: `check_safety` against the specification wording -/

/-- Specification-side reading (C4 wording) of the per-fan, per-index
minimum speed table: indices 0-3 give 0; index 4 gives 31 (Cpu) / 34
(Gpu); index 5 gives 49 (Cpu) / 51 (Gpu); indices 6-7 give 56 (Cpu) / 61
(Gpu). -/
def specMinSpeed (fan : Fan) (i : Nat) : Nat :=
  if i ≤ 3 then 0
  else if i = 4 then (match fan with | .Cpu => 31 | .Gpu => 34)
  else if i = 5 then (match fan with | .Cpu => 49 | .Gpu => 51)
  else (match fan with | .Cpu => 56 | .Gpu => 61)

/-- Specification-side reading (C4 wording) of the check at one index:
first the temperature must lie in the band `[30 + 10 i, 39 + 10 i]`, then
the speed must be at least the table minimum and at least the previous
index's speed (taken as 0 at index 0). -/
def specViolationAt (c : Curve) (fan : Fan) (i : Nat) : Option UnsafeCurveError :=
  let temp := c.curve.getD i 0
  let speed := c.curve.getD (i + 8) 0
  let prev := if i = 0 then 0 else c.curve.getD (i - 1 + 8) 0
  if ¬ (30 + 10 * i ≤ temp ∧ temp ≤ 39 + 10 * i) then some (.TempOutOfRange i)
  else if speed < specMinSpeed fan i ∨ speed < prev then some (.SpeedTooLow i)
  else none

/-- Specification-side reading of `check_safety`: the first violation in
ascending index order over 0..7, if any. -/
def specCheckSafety (c : Curve) (fan : Fan) : Except UnsafeCurveError Unit :=
  match (List.range 8).findSome? (specViolationAt c fan) with
  | some e => .error e
  | none => .ok ()

theorem minSpeedFor_eq_spec (fan : Fan) (i : Nat) (h : i < 8) :
    minSpeedFor fan i = specMinSpeed fan i := by
  interval_cases i <;> cases fan <;> rfl

theorem checkSafetyGo_eq_spec (c : Curve) (fan : Fan) :
    ∀ n i last, i + n = 8 →
      last = (if i = 0 then 0 else c.curve.getD (i - 1 + 8) 0) →
      checkSafetyGo c fan last (List.range' i n) =
        (match (List.range' i n).findSome? (specViolationAt c fan) with
          | some e => .error e
          | none => .ok ()) := by
  intro n
  induction n with
  | zero => intro i last _ _; rfl
  | succ m ih =>
    intro i last hsum hlast
    rw [List.range'_succ]
    simp only [checkSafetyGo, List.findSome?_cons, specViolationAt]
    by_cases h1 : c.curve.getD i 0 < i * 10 + 30 ∨ i * 10 + 39 < c.curve.getD i 0
    · have h1s : ¬ (30 + 10 * i ≤ c.curve.getD i 0 ∧ c.curve.getD i 0 ≤ 39 + 10 * i) := by
        omega
      rw [if_pos h1, if_pos h1s]
    · have h1s : 30 + 10 * i ≤ c.curve.getD i 0 ∧ c.curve.getD i 0 ≤ 39 + 10 * i := by
        omega
      rw [if_neg h1, if_neg (not_not_intro h1s)]
      by_cases h2 : c.curve.getD (i + 8) 0 < minSpeedFor fan i
          ∨ c.curve.getD (i + 8) 0 < last
      · have h2s : c.curve.getD (i + 8) 0 < specMinSpeed fan i
            ∨ c.curve.getD (i + 8) 0 < (if i = 0 then 0 else c.curve.getD (i - 1 + 8) 0) := by
          rw [← hlast, ← minSpeedFor_eq_spec fan i (by omega)]
          exact h2
        rw [if_pos h2, if_pos h2s]
      · have h2s : ¬ (c.curve.getD (i + 8) 0 < specMinSpeed fan i
            ∨ c.curve.getD (i + 8) 0 < (if i = 0 then 0 else c.curve.getD (i - 1 + 8) 0)) := by
          rw [← hlast, ← minSpeedFor_eq_spec fan i (by omega)]
          exact h2
        rw [if_neg h2, if_neg h2s]
        exact ih (i + 1) (c.curve.getD (i + 8) 0) (by omega) (by simp)

/-- C4: `check_safety` returns exactly what the specification describes —
scanning indices 0..7 in ascending order, it reports the first violation:
a temperature outside `[30 + 10 i, 39 + 10 i]` as `TempOutOfRange i`,
otherwise a speed below the per-fan table minimum or below the previous
speed as `SpeedTooLow i`; if no index violates, it returns `Ok`. -/
theorem claim_C4_check_safety_spec (c : Curve) (fan : Fan) :
    c.check_safety fan = specCheckSafety c fan := by
  unfold Curve.check_safety specCheckSafety
  rw [List.range_eq_range']
  exact checkSafetyGo_eq_spec c fan 8 0 0 rfl (by simp)


/-! ### Claim C3: the shape of the rendered command words -/

theorem hexDigitsAux_length (fuel : Nat) :
    ∀ n k, n ≤ fuel → n < 16 ^ k → (hexDigitsAux fuel n).length ≤ k := by
  induction fuel with
  | zero =>
    intro n k h1 _
    interval_cases n
    simp [hexDigitsAux]
  | succ f ih =>
    intro n k h1 h2
    match n with
    | 0 => simp [hexDigitsAux]
    | n + 1 =>
      cases k with
      | zero => omega
      | succ k2 =>
        have hdiv : (n + 1) / 16 ≤ f := by
          have := Nat.div_lt_self (Nat.succ_pos n) (by norm_num : 1 < 16)
          omega
        have hlt : (n + 1) / 16 < 16 ^ k2 := by
          apply Nat.div_lt_of_lt_mul
          rw [pow_succ] at h2
          omega
        have := ih ((n + 1) / 16) k2 hdiv hlt
        simp only [hexDigitsAux, List.length_append, List.length_cons, List.length_nil]
        omega

theorem hexDigits_length_le (n : Nat) (h : n < 2 ^ 32) : (hexDigits n).length ≤ 8 := by
  unfold hexDigits
  split
  · simp
  · exact hexDigitsAux_length n n 8 le_rfl (by norm_num at h ⊢; omega)

theorem wf_getD_lt (c : Curve) (h : c.Wf) (i : Nat) : c.curve.getD i 0 < 256 := by
  by_cases hi : i < c.curve.length
  · rw [List.getD_eq_getElem _ _ hi]
    exact h.2 _ (List.getElem_mem hi)
  · rw [List.getD_eq_default _ _ (by omega)]
    norm_num

/-- A length-16 list written out through its entries. -/
theorem list16_eq_explicit (l : List Nat) (h : l.length = 16) :
    l = [l.getD 0 0, l.getD 1 0, l.getD 2 0, l.getD 3 0,
         l.getD 4 0, l.getD 5 0, l.getD 6 0, l.getD 7 0,
         l.getD 8 0, l.getD 9 0, l.getD 10 0, l.getD 11 0,
         l.getD 12 0, l.getD 13 0, l.getD 14 0, l.getD 15 0] := by
  apply List.ext_getElem (by simp [h])
  intro n h1 h2
  have h16 : n < 16 := by omega
  interval_cases n <;> simp [List.getElem?_eq_getElem h1]

theorem chunksExact4_of_len16 (c : Curve) (h : c.curve.length = 16) :
    chunksExact4 c.curve =
      [[c.curve.getD 0 0, c.curve.getD 1 0, c.curve.getD 2 0, c.curve.getD 3 0],
       [c.curve.getD 4 0, c.curve.getD 5 0, c.curve.getD 6 0, c.curve.getD 7 0],
       [c.curve.getD 8 0, c.curve.getD 9 0, c.curve.getD 10 0, c.curve.getD 11 0],
       [c.curve.getD 12 0, c.curve.getD 13 0, c.curve.getD 14 0, c.curve.getD 15 0]] := by
  conv_lhs => rw [list16_eq_explicit c.curve h]
  rfl

theorem curveWord_lt (c : Curve) (h : c.Wf) (j : Nat) :
    curveWord c j < 2 ^ 32 := by
  have b0 := wf_getD_lt c h (4 * j)
  have b1 := wf_getD_lt c h (4 * j + 1)
  have b2 := wf_getD_lt c h (4 * j + 2)
  have b3 := wf_getD_lt c h (4 * j + 3)
  unfold curveWord
  rw [show (2 : Nat) ^ 8 = 256 by norm_num, show (2 : Nat) ^ 16 = 65536 by norm_num,
    show (2 : Nat) ^ 24 = 16777216 by norm_num, show (2 : Nat) ^ 32 = 4294967296 by norm_num]
  omega

/-- C3: for every well-formed curve (16 byte entries) and every fan
address, `make_command` renders each of the four little-endian words as a
literal of exactly 10 characters: the two characters `0x`, then padding
zeros, then the hex digits (at most 8 of them, padded back up to exactly
8), and the four word literals are separated by single spaces. -/
theorem claim_C3_word_rendering (c : Curve) (fan : Nat) (h : c.Wf) :
    make_command c fan =
      cmdMethodPath
        ++ hexPad10 (curveWord c 0) ++ [' '] ++ hexPad10 (curveWord c 1) ++ [' ']
        ++ hexPad10 (curveWord c 2) ++ [' '] ++ hexPad10 (curveWord c 3) ++ [' ']
        ++ ['0', 'x'] ++ hexDigits fan
    ∧ ∀ j < 4,
        hexPad10 (curveWord c j)
          = ['0', 'x']
              ++ List.replicate (8 - (hexDigits (curveWord c j)).length) '0'
              ++ hexDigits (curveWord c j)
        ∧ (hexDigits (curveWord c j)).length ≤ 8
        ∧ (hexPad10 (curveWord c j)).length = 10 := by
  constructor
  · unfold make_command
    rw [chunksExact4_of_len16 c h.1]
    simp only [List.map_cons, List.map_nil, List.flatten]
    have e0 : wordOfChunk [c.curve.getD 0 0, c.curve.getD 1 0, c.curve.getD 2 0, c.curve.getD 3 0]
        = curveWord c 0 := rfl
    have e1 : wordOfChunk [c.curve.getD 4 0, c.curve.getD 5 0, c.curve.getD 6 0, c.curve.getD 7 0]
        = curveWord c 1 := rfl
    have e2 : wordOfChunk [c.curve.getD 8 0, c.curve.getD 9 0, c.curve.getD 10 0, c.curve.getD 11 0]
        = curveWord c 2 := rfl
    have e3 : wordOfChunk [c.curve.getD 12 0, c.curve.getD 13 0, c.curve.getD 14 0, c.curve.getD 15 0]
        = curveWord c 3 := rfl
    rw [e0, e1, e2, e3]
    simp [List.append_assoc]
  · intro j hj
    have hlt := curveWord_lt c h j
    have hlen := hexDigits_length_le _ hlt
    refine ⟨rfl, hlen, ?_⟩
    simp [hexPad10]
    omega

/-- C3 witness: the word-rendering shape at the default curve and the Cpu
fan address. -/
theorem claim_C3_witness :
    make_command Curve.new 0x40 =
      cmdMethodPath
        ++ hexPad10 (curveWord Curve.new 0) ++ [' '] ++ hexPad10 (curveWord Curve.new 1) ++ [' ']
        ++ hexPad10 (curveWord Curve.new 2) ++ [' '] ++ hexPad10 (curveWord Curve.new 3) ++ [' ']
        ++ ['0', 'x'] ++ hexDigits 0x40
    ∧ ∀ j < 4,
        hexPad10 (curveWord Curve.new j)
          = ['0', 'x']
              ++ List.replicate (8 - (hexDigits (curveWord Curve.new j)).length) '0'
              ++ hexDigits (curveWord Curve.new j)
        ∧ (hexDigits (curveWord Curve.new j)).length ≤ 8
        ∧ (hexPad10 (curveWord Curve.new j)).length = 10 :=
  claim_C3_word_rendering Curve.new 0x40 (by decide)

/-! ### Toolkit for the config-string parser claims -/

theorem splitOnChar_not_mem (sep : Char) (l : List Char) (h : sep ∉ l) :
    splitOnChar sep l = [l] := by
  induction l with
  | nil => rfl
  | cons ch rest ih =>
    have hne : ¬ ch = sep := fun he => h (he ▸ List.mem_cons_self ch rest)
    have hrest : sep ∉ rest := fun hm => h (List.mem_cons_of_mem ch hm)
    simp only [splitOnChar, if_neg hne, ih hrest]

theorem splitOnChar_ne_nil (sep : Char) (l : List Char) :
    splitOnChar sep l ≠ [] := by
  cases l with
  | nil => simp [splitOnChar]
  | cons ch rest =>
    simp only [splitOnChar]
    split
    · simp
    · split <;> simp

theorem splitOnChar_append (sep : Char) (l1 l2 : List Char) (h : sep ∉ l1) :
    splitOnChar sep (l1 ++ sep :: l2) = l1 :: splitOnChar sep l2 := by
  induction l1 with
  | nil => simp [splitOnChar]
  | cons ch rest ih =>
    have hne : ¬ ch = sep := fun he => h (he ▸ List.mem_cons_self ch rest)
    have hrest : sep ∉ rest := fun hm => h (List.mem_cons_of_mem ch hm)
    simp only [List.cons_append, splitOnChar, if_neg hne, List.append_eq]
    rw [ih hrest]

theorem dropWhile_eq_self (p : Char → Bool) (l : List Char)
    (h : ∀ ch ∈ l, p ch = false) : l.dropWhile p = l := by
  cases l with
  | nil => rfl
  | cons ch rest =>
    rw [List.dropWhile_cons, if_neg]
    simp [h ch (List.mem_cons_self ch rest)]

theorem trimChars_eq_self (l : List Char)
    (h : ∀ ch ∈ l, ch.isWhitespace = false) : trimChars l = l := by
  unfold trimChars
  rw [dropWhile_eq_self _ _ h, dropWhile_eq_self, List.reverse_reverse]
  intro ch hch
  exact h ch (List.mem_reverse.mp hch)

theorem trimTrailingCommas_concat (l : List Char) (a : Char) (h : ¬ a = ',') :
    trimTrailingCommas (l ++ [a]) = l ++ [a] := by
  unfold trimTrailingCommas
  rw [List.reverse_append]
  simp only [List.reverse_cons, List.reverse_nil, List.nil_append, List.singleton_append,
    List.dropWhile_cons]
  rw [if_neg (by simp [h])]
  simp

theorem endsWithChar_concat (l : List Char) (a : Char) :
    endsWithChar (l ++ [a]) a = true := by
  simp [endsWithChar, List.getLast?_concat]

theorem parseU8_lt (l : List Char) (v : Nat) (h : parseU8 l = some v) : v < 256 := by
  simp only [parseU8] at h
  split at h
  · exact absurd h (by simp)
  · split at h
    · split at h
      · injection h with h2
        omega
      · exact absurd h (by simp)
    · exact absurd h (by simp)

/-- One `<t>c:<s>%` token of the config-string format. -/
def tokenOf (t s : Nat) : List Char :=
  natToChars t ++ ['c', ':'] ++ natToChars s ++ ['%']

set_option maxRecDepth 8192 in
theorem natToChars_parse_back : ∀ v < 256, parseU8 (natToChars v) = some v := by
  decide

set_option maxRecDepth 8192 in
theorem natToChars_chars_ok : ∀ v < 256,
    (natToChars v).all (fun ch =>
      !ch.isWhitespace && !(ch == ',') && !(ch == ':') && !(ch == '%')) = true := by
  decide

theorem parsePair_tokenOf (t s : Nat) (ht : t < 256) (hs : s < 256) :
    parsePair (tokenOf t s) = .ok (t, s) := by
  have htc := natToChars_chars_ok t ht
  have hsc := natToChars_chars_ok s hs
  rw [List.all_eq_true] at htc hsc
  have htf : ∀ ch ∈ natToChars t, ch.isWhitespace = false ∧ ch ≠ ',' ∧ ch ≠ ':' ∧ ch ≠ '%' := by
    intro ch hch
    have := htc ch hch
    simp only [Bool.and_eq_true, Bool.not_eq_true', beq_eq_false_iff_ne, ne_eq] at this
    tauto
  have hsf : ∀ ch ∈ natToChars s, ch.isWhitespace = false ∧ ch ≠ ',' ∧ ch ≠ ':' ∧ ch ≠ '%' := by
    intro ch hch
    have := hsc ch hch
    simp only [Bool.and_eq_true, Bool.not_eq_true', beq_eq_false_iff_ne, ne_eq] at this
    tauto
  have hnws : ∀ ch ∈ tokenOf t s, ch.isWhitespace = false := by
    intro ch hch
    simp only [tokenOf, List.append_assoc, List.mem_append, List.mem_cons,
      List.mem_singleton, List.not_mem_nil, or_false] at hch
    rcases hch with h | h | h | h
    · exact (htf ch h).1
    · rcases h with rfl | rfl <;> decide
    · exact (hsf ch h).1
    · subst h; decide
  have htrim : trimChars (tokenOf t s) = tokenOf t s := trimChars_eq_self _ hnws
  have hmem1 : ':' ∉ natToChars t ++ ['c'] := by
    simp only [List.mem_append, List.mem_singleton]
    rintro (h | h)
    · exact (htf ':' h).2.2.1 rfl
    · exact absurd h (by decide)
  have hmem2 : ':' ∉ natToChars s ++ ['%'] := by
    simp only [List.mem_append, List.mem_singleton]
    rintro (h | h)
    · exact (hsf ':' h).2.2.1 rfl
    · exact absurd h (by decide)
  have hshape : tokenOf t s = (natToChars t ++ ['c']) ++ ':' :: (natToChars s ++ ['%']) := by
    simp [tokenOf]
  simp only [parsePair]
  rw [htrim, hshape, splitOnChar_append _ _ _ hmem1, splitOnChar_not_mem _ _ hmem2]
  simp only [endsWithChar_concat, List.dropLast_concat,
    natToChars_parse_back t ht, natToChars_parse_back s hs]
  simp

theorem parsePair_ok_lt (tok : List Char) (t s : Nat)
    (h : parsePair tok = .ok (t, s)) : t < 256 ∧ s < 256 := by
  simp only [parsePair] at h
  split at h
  · exact absurd h (by simp)
  · exact absurd h (by simp)
  · split at h
    · exact absurd h (by simp)
    · split at h
      · exact absurd h (by simp)
      · split at h
        · exact absurd h (by simp)
        · split at h
          · exact absurd h (by simp)
          · rw [Except.ok.injEq, Prod.mk.injEq] at h
            obtain ⟨rfl, rfl⟩ := h
            exact ⟨parseU8_lt _ _ (by assumption), parseU8_lt _ _ (by assumption)⟩

theorem set_point_eq_of_le (c : Curve) (i t s : Nat) (h : i ≤ 7) :
    c.set_point i t s = some ⟨(c.curve.set i t).set (i + 8) s⟩ := by
  unfold Curve.set_point
  rw [if_pos h]

theorem fromTokens_ne_panicked (toks : List (List Char)) :
    ∀ c i, fromTokens c i toks ≠ .panicked := by
  induction toks with
  | nil =>
    intro c i
    simp only [fromTokens]
    split <;> simp
  | cons tok rest ih =>
    intro c i
    simp only [fromTokens]
    split
    · simp
    · rename_i h8
      cases hp : parsePair tok with
      | error e => simp
      | ok p =>
        obtain ⟨t, s⟩ := p
        dsimp only
        rw [set_point_eq_of_le c i t s (by omega)]
        exact ih _ _

theorem fromTokens_ok_ge (toks : List (List Char)) :
    ∀ c i c2, fromTokens c i toks = .ok c2 → 7 ≤ i + toks.length := by
  induction toks with
  | nil =>
    intro c i c2 h
    simp only [fromTokens] at h
    split at h
    · exact absurd h (by simp)
    · rename_i h7
      simp only [List.length_nil]
      omega
  | cons tok rest ih =>
    intro c i c2 h
    simp only [fromTokens] at h
    split at h
    · exact absurd h (by simp)
    · rename_i h8
      cases hp : parsePair tok with
      | error e => rw [hp] at h; exact absurd h (by simp)
      | ok p =>
        obtain ⟨t, s⟩ := p
        rw [hp] at h
        dsimp only at h
        rw [set_point_eq_of_le c i t s (by omega)] at h
        dsimp only at h
        have := ih _ _ _ h
        simp only [List.length_cons]
        omega

theorem fromTokens_ok_le (toks : List (List Char)) :
    ∀ c i c2, i ≤ 8 → fromTokens c i toks = .ok c2 → i + toks.length ≤ 8 := by
  induction toks with
  | nil =>
    intro c i c2 hi _
    simp only [List.length_nil]
    omega
  | cons tok rest ih =>
    intro c i c2 hi h
    simp only [fromTokens] at h
    split at h
    · exact absurd h (by simp)
    · rename_i h8
      cases hp : parsePair tok with
      | error e => rw [hp] at h; exact absurd h (by simp)
      | ok p =>
        obtain ⟨t, s⟩ := p
        rw [hp] at h
        dsimp only at h
        rw [set_point_eq_of_le c i t s (by omega)] at h
        dsimp only at h
        have := ih _ _ _ (by omega) h
        simp only [List.length_cons]
        omega

theorem fromTokens_ok_all (toks : List (List Char)) :
    ∀ c i c2, fromTokens c i toks = .ok c2 →
      ∀ tok ∈ toks, ∃ p, parsePair tok = .ok p := by
  induction toks with
  | nil =>
    intro c i c2 _ tok htok
    exact absurd htok (List.not_mem_nil tok)
  | cons tok0 rest ih =>
    intro c i c2 h tok htok
    simp only [fromTokens] at h
    split at h
    · exact absurd h (by simp)
    · rename_i h8
      cases hp : parsePair tok0 with
      | error e => rw [hp] at h; exact absurd h (by simp)
      | ok p =>
        obtain ⟨t, s⟩ := p
        rw [hp] at h
        dsimp only at h
        rw [set_point_eq_of_le c i t s (by omega)] at h
        dsimp only at h
        rcases List.mem_cons.mp htok with rfl | hmem
        · exact ⟨(t, s), hp⟩
        · exact ih _ _ _ h tok hmem

theorem fromTokens_frame (toks : List (List Char)) :
    ∀ c i c2, fromTokens c i toks = .ok c2 →
      ∀ m, (∀ j, i ≤ j → j < i + toks.length → m ≠ j ∧ m ≠ j + 8) →
        c2.curve.getD m 0 = c.curve.getD m 0 := by
  induction toks with
  | nil =>
    intro c i c2 h m _
    simp only [fromTokens] at h
    split at h
    · exact absurd h (by simp)
    · rw [ParseResult.ok.injEq] at h
      rw [h]
  | cons tok rest ih =>
    intro c i c2 h m hm
    simp only [fromTokens] at h
    split at h
    · exact absurd h (by simp)
    · rename_i h8
      cases hp : parsePair tok with
      | error e => rw [hp] at h; exact absurd h (by simp)
      | ok p =>
        obtain ⟨t, s⟩ := p
        rw [hp] at h
        dsimp only at h
        rw [set_point_eq_of_le c i t s (by omega)] at h
        dsimp only at h
        have hstep := ih _ _ _ h m (by
          intro j hj1 hj2
          exact hm j (by omega) (by simp only [List.length_cons]; omega))
        rw [hstep]
        have hi := hm i (le_refl i) (by simp only [List.length_cons]; omega)
        rw [getD_set_ne _ _ _ _ (by omega), getD_set_ne _ _ _ _ (by omega)]

theorem fromTokens_ok_of_good (toks : List (List Char)) :
    ∀ c i, (∀ tok ∈ toks, ∃ p, parsePair tok = .ok p) →
      7 ≤ i + toks.length → i + toks.length ≤ 8 →
      ∃ c2, fromTokens c i toks = .ok c2 := by
  induction toks with
  | nil =>
    intro c i _ h7 _
    refine ⟨c, ?_⟩
    simp only [fromTokens]
    rw [if_neg (by simp only [List.length_nil] at h7; omega)]
  | cons tok rest ih =>
    intro c i hgood h7 h8
    simp only [List.length_cons] at h7 h8
    obtain ⟨⟨t, s⟩, hp⟩ := hgood tok (List.mem_cons_self tok rest)
    obtain ⟨c2, hc2⟩ := ih ⟨(c.curve.set i t).set (i + 8) s⟩ (i + 1)
      (fun tk hk => hgood tk (List.mem_cons_of_mem tok hk)) (by omega) (by omega)
    refine ⟨c2, ?_⟩
    simp only [fromTokens]
    rw [if_neg (by omega), hp]
    dsimp only
    rw [set_point_eq_of_le c i t s (by omega)]
    exact hc2

theorem fromTokens_wf (toks : List (List Char)) :
    ∀ c i c2, c.Wf → fromTokens c i toks = .ok c2 → c2.Wf := by
  induction toks with
  | nil =>
    intro c i c2 hwf h
    simp only [fromTokens] at h
    split at h
    · exact absurd h (by simp)
    · rw [ParseResult.ok.injEq] at h
      rw [← h]
      exact hwf
  | cons tok rest ih =>
    intro c i c2 hwf h
    simp only [fromTokens] at h
    split at h
    · exact absurd h (by simp)
    · rename_i h8
      cases hp : parsePair tok with
      | error e => rw [hp] at h; exact absurd h (by simp)
      | ok p =>
        obtain ⟨t, s⟩ := p
        obtain ⟨ht, hs⟩ := parsePair_ok_lt tok t s hp
        rw [hp] at h
        dsimp only at h
        rw [set_point_eq_of_le c i t s (by omega)] at h
        dsimp only at h
        refine ih _ _ _ ⟨by simp [hwf.1], ?_⟩ h
        intro x hx
        rcases List.mem_or_eq_of_mem_set hx with hx2 | rfl
        · rcases List.mem_or_eq_of_mem_set hx2 with hx3 | rfl
          · exact hwf.2 x hx3
          · exact ht
        · exact hs

theorem fromTokens_ok_points (toks : List (List Char)) :
    ∀ c i c2, c.curve.length = 16 → fromTokens c i toks = .ok c2 →
      ∀ k, k < toks.length →
        parsePair (toks.getD k []) =
          .ok (c2.curve.getD (i + k) 0, c2.curve.getD (i + k + 8) 0) := by
  induction toks with
  | nil =>
    intro c i c2 _ _ k hk
    exact absurd hk (by simp)
  | cons tok rest ih =>
    intro c i c2 hlen h k hk
    simp only [fromTokens] at h
    split at h
    · exact absurd h (by simp)
    · rename_i h8
      cases hp : parsePair tok with
      | error e => rw [hp] at h; exact absurd h (by simp)
      | ok p =>
        obtain ⟨t, s⟩ := p
        rw [hp] at h
        dsimp only at h
        rw [set_point_eq_of_le c i t s (by omega)] at h
        dsimp only at h
        cases k with
        | zero =>
          have hle := fromTokens_ok_le rest _ (i + 1) c2 (by omega) h
          have hfr_i := fromTokens_frame rest _ (i + 1) c2 h i (by
            intro j hj1 hj2
            constructor <;> omega)
          have hfr_i8 := fromTokens_frame rest _ (i + 1) c2 h (i + 8) (by
            intro j hj1 hj2
            constructor <;> omega)
          dsimp only at hfr_i hfr_i8
          have hgi : ((c.curve.set i t).set (i + 8) s).getD i 0 = t := by
            rw [getD_set_ne _ _ _ _ (by omega), getD_set_self _ _ _ (by omega)]
          have hgi8 : ((c.curve.set i t).set (i + 8) s).getD (i + 8) 0 = s := by
            exact getD_set_self _ _ _ (by rw [List.length_set, hlen]; omega)
          simp only [List.getD_cons_zero, Nat.add_zero]
          rw [hfr_i, hfr_i8, hgi, hgi8]
          exact hp
        | succ k2 =>
          have hrec := ih _ (i + 1) c2 (by simp [hlen]) h k2 (by
            simp only [List.length_cons] at hk
            omega)
          simp only [List.getD_cons_succ]
          rw [show i + (k2 + 1) = i + 1 + k2 by omega,
            show i + 1 + k2 + 8 = i + 1 + k2 + 8 from rfl]
          exact hrec

/-! ### Claim C5: accepted token counts -/

/-- A token is well-formed when the per-token parser accepts it. -/
def pairOk (tok : List Char) : Bool :=
  match parsePair tok with
  | .ok _ => true
  | .error _ => false

theorem pairOk_iff (tok : List Char) :
    pairOk tok = true ↔ ∃ p, parsePair tok = .ok p := by
  unfold pairOk
  cases h : parsePair tok with
  | error e => simp
  | ok p => simp

/-- C5: a config string with more than 8 tokens is rejected, one with
fewer than 7 tokens is rejected, and one with exactly 7 well-formed
tokens is accepted, with each parsed token overwriting the default curve
in order from index 0 and point 7 left at the vendor default temperature
100 and speed 100; one with exactly 8 well-formed tokens is accepted,
with each parsed token overwriting the default curve in order from
index 0. -/
theorem claim_C5_token_counts (s : List Char) :
    (8 < (tokensOf s).length → ∃ e, Curve.from_config_str s = .err e)
    ∧ ((tokensOf s).length < 7 → ∃ e, Curve.from_config_str s = .err e)
    ∧ ((tokensOf s).length = 7 →
        (∀ tok ∈ tokensOf s, pairOk tok = true) →
        ∃ c, Curve.from_config_str s = .ok c
          ∧ (∀ i < 7, parsePair ((tokensOf s).getD i []) =
              .ok (c.curve.getD i 0, c.curve.getD (i + 8) 0))
          ∧ c.curve.getD 7 0 = 100 ∧ c.curve.getD 15 0 = 100)
    ∧ ((tokensOf s).length = 8 →
        (∀ tok ∈ tokensOf s, pairOk tok = true) →
        ∃ c, Curve.from_config_str s = .ok c
          ∧ ∀ i < 8, parsePair ((tokensOf s).getD i []) =
              .ok (c.curve.getD i 0, c.curve.getD (i + 8) 0)) := by
  refine ⟨?_, ?_, ?_, ?_⟩
  · intro hlen
    cases hr : Curve.from_config_str s with
    | panicked => exact absurd hr (fromTokens_ne_panicked (tokensOf s) Curve.new 0)
    | err e => exact ⟨e, rfl⟩
    | ok c =>
      have := fromTokens_ok_le (tokensOf s) Curve.new 0 c (by omega) hr
      omega
  · intro hlen
    cases hr : Curve.from_config_str s with
    | panicked => exact absurd hr (fromTokens_ne_panicked (tokensOf s) Curve.new 0)
    | err e => exact ⟨e, rfl⟩
    | ok c =>
      have := fromTokens_ok_ge (tokensOf s) Curve.new 0 c hr
      omega
  · intro hlen hgood
    have hgood2 : ∀ tok ∈ tokensOf s, ∃ p, parsePair tok = .ok p :=
      fun tok htok => (pairOk_iff tok).mp (hgood tok htok)
    obtain ⟨c, hc⟩ :=
      fromTokens_ok_of_good (tokensOf s) Curve.new 0 hgood2 (by omega) (by omega)
    refine ⟨c, hc, ?_, ?_, ?_⟩
    · intro i hi
      have := fromTokens_ok_points (tokensOf s) Curve.new 0 c (by decide) hc i (by omega)
      simpa using this
    · have := fromTokens_frame (tokensOf s) Curve.new 0 c hc 7
        (by intro j hj1 hj2; omega)
      rw [this]
      rfl
    · have := fromTokens_frame (tokensOf s) Curve.new 0 c hc 15
        (by intro j hj1 hj2; rw [hlen] at hj2; omega)
      rw [this]
      rfl
  · intro hlen hgood
    have hgood2 : ∀ tok ∈ tokensOf s, ∃ p, parsePair tok = .ok p :=
      fun tok htok => (pairOk_iff tok).mp (hgood tok htok)
    obtain ⟨c, hc⟩ :=
      fromTokens_ok_of_good (tokensOf s) Curve.new 0 hgood2 (by omega) (by omega)
    refine ⟨c, hc, ?_⟩
    intro i hi
    have := fromTokens_ok_points (tokensOf s) Curve.new 0 c (by decide) hc i (by omega)
    simpa using this

/-- C5 witness: a concrete 7-token config string is accepted with its
tokens written in order and point 7 at the default, and a concrete
8-token config string is accepted with its tokens written in order. -/
theorem claim_C5_witness :
    (∃ c, Curve.from_config_str
      ['3','0','c',':','1','%',',','4','9','c',':','2','%',',',
       '5','9','c',':','3','%',',','6','9','c',':','4','%',',',
       '7','9','c',':','3','1','%',',','8','9','c',':','4','9','%',',',
       '9','9','c',':','5','6','%'] = .ok c
      ∧ (∀ i < 7, parsePair ((tokensOf
          ['3','0','c',':','1','%',',','4','9','c',':','2','%',',',
           '5','9','c',':','3','%',',','6','9','c',':','4','%',',',
           '7','9','c',':','3','1','%',',','8','9','c',':','4','9','%',',',
           '9','9','c',':','5','6','%']).getD i []) =
          .ok (c.curve.getD i 0, c.curve.getD (i + 8) 0))
      ∧ c.curve.getD 7 0 = 100 ∧ c.curve.getD 15 0 = 100)
    ∧ (∃ c, Curve.from_config_str
      ['3','0','c',':','1','%',',','4','9','c',':','2','%',',',
       '5','9','c',':','3','%',',','6','9','c',':','4','%',',',
       '7','9','c',':','3','1','%',',','8','9','c',':','4','9','%',',',
       '9','9','c',':','5','6','%',',','1','0','9','c',':','5','8','%'] = .ok c
      ∧ ∀ i < 8, parsePair ((tokensOf
          ['3','0','c',':','1','%',',','4','9','c',':','2','%',',',
           '5','9','c',':','3','%',',','6','9','c',':','4','%',',',
           '7','9','c',':','3','1','%',',','8','9','c',':','4','9','%',',',
           '9','9','c',':','5','6','%',',','1','0','9','c',':','5','8','%']).getD i []) =
          .ok (c.curve.getD i 0, c.curve.getD (i + 8) 0)) :=
  ⟨(claim_C5_token_counts _).2.2.1 (by decide) (by decide),
   (claim_C5_token_counts _).2.2.2 (by decide) (by decide)⟩

/-! ### Claim C6: rejection of malformed tokens -/

/-- A token violating the grammar that the parser actually enforces: after
trimming and splitting on `:`, there must be at least two pieces, the
first piece must end in `c`, the second piece must end in `%`, and both
pieces with their suffix stripped must parse as `u8`; pieces after the
second are ignored. -/
def tokenViolation (tok : List Char) : Prop :=
  (splitOnChar ':' (trimChars tok)).length < 2
  ∨ endsWithChar ((splitOnChar ':' (trimChars tok)).getD 0 []) 'c' = false
  ∨ endsWithChar ((splitOnChar ':' (trimChars tok)).getD 1 []) '%' = false
  ∨ parseU8 ((splitOnChar ':' (trimChars tok)).getD 0 []).dropLast = none
  ∨ parseU8 ((splitOnChar ':' (trimChars tok)).getD 1 []).dropLast = none

instance (tok : List Char) : Decidable (tokenViolation tok) := by
  unfold tokenViolation
  infer_instance

theorem parsePair_ok_not_violation (tok : List Char) (t s : Nat)
    (h : parsePair tok = .ok (t, s)) : ¬ tokenViolation tok := by
  simp only [parsePair] at h
  split at h
  · exact absurd h (by simp)
  · exact absurd h (by simp)
  · rename_i temp speed tail heq
    split at h
    · exact absurd h (by simp)
    · rename_i hc
      split at h
      · exact absurd h (by simp)
      · rename_i hpc
        split at h
        · exact absurd h (by simp)
        · rename_i t2 ht2
          split at h
          · exact absurd h (by simp)
          · rename_i s2 hs2
            intro hviol
            unfold tokenViolation at hviol
            rw [heq] at hviol
            simp only [List.length_cons, List.getD_cons_zero, List.getD_cons_succ] at hviol
            rcases hviol with hv | hv | hv | hv | hv
            · omega
            · exact hc hv
            · exact hpc hv
            · rw [ht2] at hv; exact absurd hv (by simp)
            · rw [hs2] at hv; exact absurd hv (by simp)

/-- C6 (amended): whenever any comma-separated token of the input
violates the enforced token grammar — fewer than two `:`-pieces, first
piece not ending in `c`, second piece not ending in `%`, or a residue
that does not parse as `u8` — `from_config_str` returns an error (and
never panics). -/
theorem claim_C6_bad_token_rejected (s : List Char) (tok : List Char)
    (htok : tok ∈ tokensOf s) (hviol : tokenViolation tok) :
    ∃ e, Curve.from_config_str s = .err e := by
  cases hr : Curve.from_config_str s with
  | panicked => exact absurd hr (fromTokens_ne_panicked (tokensOf s) Curve.new 0)
  | err e => exact ⟨e, rfl⟩
  | ok c =>
    obtain ⟨⟨t, sp⟩, hp⟩ := fromTokens_ok_all (tokensOf s) Curve.new 0 c hr tok htok
    exact absurd hviol (parsePair_ok_not_violation tok t sp hp)

/-- C6 counterexample: a token with two `:` separators whose first two
pieces are well-formed is accepted, not rejected — `30c:1%:9` parses as
temperature 30, speed 1, silently ignoring `:9`, and the whole 7-token
string decodes successfully. -/
theorem claim_C6_counterexample :
    Curve.from_config_str
      ['3','0','c',':','1','%',':','9',',','4','0','c',':','2','%',',',
       '5','0','c',':','3','%',',','6','0','c',':','4','%',',',
       '7','0','c',':','3','1','%',',','8','0','c',':','4','9','%',',',
       '9','0','c',':','5','6','%'] =
      ParseResult.ok ⟨[30, 40, 50, 60, 70, 80, 90, 100,
                       1, 2, 3, 4, 31, 49, 56, 100]⟩ := by
  decide

/-- C6 witness: a concrete token missing its percent suffix makes the
whole decode fail. -/
theorem claim_C6_witness :
    ∃ e, Curve.from_config_str
      ['3','0','c',':','1',',','4','9','c',':','2','%',',',
       '5','9','c',':','3','%',',','6','9','c',':','4','%',',',
       '7','9','c',':','3','1','%',',','8','9','c',':','4','9','%',',',
       '9','9','c',':','5','6','%'] = .err e :=
  claim_C6_bad_token_rejected _ ['3','0','c',':','1'] (by decide) (by decide)

/-! ### Claim C1: decode is a left inverse of encode -/

theorem tokenOf_char_facts (t s : Nat) (ht : t < 256) (hs : s < 256) :
    ∀ ch ∈ tokenOf t s, ch.isWhitespace = false ∧ ch ≠ ',' := by
  have htc := natToChars_chars_ok t ht
  have hsc := natToChars_chars_ok s hs
  rw [List.all_eq_true] at htc hsc
  intro ch hch
  simp only [tokenOf, List.append_assoc, List.mem_append, List.mem_cons,
    List.mem_singleton, List.not_mem_nil, or_false] at hch
  rcases hch with h | h | h | h
  · have := htc ch h
    simp only [Bool.and_eq_true, Bool.not_eq_true', beq_eq_false_iff_ne, ne_eq] at this
    exact ⟨this.1.1.1, this.1.1.2⟩
  · rcases h with rfl | rfl <;> exact ⟨by decide, by decide⟩
  · have := hsc ch h
    simp only [Bool.and_eq_true, Bool.not_eq_true', beq_eq_false_iff_ne, ne_eq] at this
    exact ⟨this.1.1.1, this.1.1.2⟩
  · subst h; exact ⟨by decide, by decide⟩

theorem as_config_string_shape (c : Curve) :
    c.as_config_string =
      tokenOf (c.curve.getD 0 0) (c.curve.getD 8 0) ++ [','] ++
      tokenOf (c.curve.getD 1 0) (c.curve.getD 9 0) ++ [','] ++
      tokenOf (c.curve.getD 2 0) (c.curve.getD 10 0) ++ [','] ++
      tokenOf (c.curve.getD 3 0) (c.curve.getD 11 0) ++ [','] ++
      tokenOf (c.curve.getD 4 0) (c.curve.getD 12 0) ++ [','] ++
      tokenOf (c.curve.getD 5 0) (c.curve.getD 13 0) ++ [','] ++
      tokenOf (c.curve.getD 6 0) (c.curve.getD 14 0) ++ [','] ++
      tokenOf (c.curve.getD 7 0) (c.curve.getD 15 0) := by
  have hflat : ((List.range 8).map (fun i =>
      natToChars (c.curve.getD i 0) ++ ['c', ':']
        ++ natToChars (c.curve.getD (i + 8) 0) ++ ['%', ','])).flatten
      = (tokenOf (c.curve.getD 0 0) (c.curve.getD 8 0) ++ [','] ++
         tokenOf (c.curve.getD 1 0) (c.curve.getD 9 0) ++ [','] ++
         tokenOf (c.curve.getD 2 0) (c.curve.getD 10 0) ++ [','] ++
         tokenOf (c.curve.getD 3 0) (c.curve.getD 11 0) ++ [','] ++
         tokenOf (c.curve.getD 4 0) (c.curve.getD 12 0) ++ [','] ++
         tokenOf (c.curve.getD 5 0) (c.curve.getD 13 0) ++ [','] ++
         tokenOf (c.curve.getD 6 0) (c.curve.getD 14 0) ++ [','] ++
         tokenOf (c.curve.getD 7 0) (c.curve.getD 15 0)) ++ [','] := by
    have hr : List.range 8 = [0, 1, 2, 3, 4, 5, 6, 7] := rfl
    rw [hr]
    simp [tokenOf, List.append_assoc]
  rw [Curve.as_config_string, hflat, List.dropLast_concat]

theorem comma_not_mem_tokenOf (t s : Nat) (ht : t < 256) (hs : s < 256) :
    ',' ∉ tokenOf t s :=
  fun hmem => (tokenOf_char_facts t s ht hs ',' hmem).2 rfl

theorem tokenOf_getLast (t s : Nat) : (tokenOf t s).getLast? = some '%' := by
  unfold tokenOf
  rw [show natToChars t ++ ['c', ':'] ++ natToChars s ++ ['%']
      = (natToChars t ++ ['c', ':'] ++ natToChars s) ++ ['%'] by simp [List.append_assoc]]
  exact List.getLast?_concat _

theorem trimTrailingCommas_getLast (l : List Char) (h : l.getLast? = some '%') :
    trimTrailingCommas l = l := by
  unfold trimTrailingCommas
  cases hrev : l.reverse with
  | nil =>
    have hl0 : l = [] := by
      have := congrArg List.reverse hrev
      simpa using this
    rw [hl0] at h
    simp at h
  | cons a t =>
    have ha : a = '%' := by
      have hh := List.head?_reverse l
      rw [hrev, h] at hh
      simpa using hh
    rw [List.dropWhile_cons, if_neg (by simp [ha]), ← hrev, List.reverse_reverse]

theorem fromTokens_cons_ok (c : Curve) (i : Nat) (tok : List Char)
    (rest : List (List Char)) (t s : Nat)
    (hp : parsePair tok = .ok (t, s)) (hi : i ≤ 7) :
    fromTokens c i (tok :: rest) =
      fromTokens ⟨(c.curve.set i t).set (i + 8) s⟩ (i + 1) rest := by
  simp only [fromTokens]
  rw [if_neg (by omega), hp]
  dsimp only
  rw [set_point_eq_of_le c i t s hi]

theorem from_config_of_wf (c : Curve) (h : c.Wf) :
    Curve.from_config_str c.as_config_string = .ok c := by
  have hb : ∀ i, c.curve.getD i 0 < 256 := wf_getD_lt c h
  have hshape := as_config_string_shape c
  have hnws : ∀ ch ∈ c.as_config_string, ch.isWhitespace = false := by
    rw [hshape]
    simp only [List.forall_mem_append]
    repeat' apply And.intro
    all_goals
      first
        | decide
        | (intro ch hch; exact (tokenOf_char_facts _ _ (hb _) (hb _) ch hch).1)
  have hlast : c.as_config_string.getLast? = some '%' := by
    rw [hshape]
    simp only [List.getLast?_append, tokenOf_getLast]
    rfl
  have htoks : tokensOf c.as_config_string =
      [tokenOf (c.curve.getD 0 0) (c.curve.getD 8 0),
       tokenOf (c.curve.getD 1 0) (c.curve.getD 9 0),
       tokenOf (c.curve.getD 2 0) (c.curve.getD 10 0),
       tokenOf (c.curve.getD 3 0) (c.curve.getD 11 0),
       tokenOf (c.curve.getD 4 0) (c.curve.getD 12 0),
       tokenOf (c.curve.getD 5 0) (c.curve.getD 13 0),
       tokenOf (c.curve.getD 6 0) (c.curve.getD 14 0),
       tokenOf (c.curve.getD 7 0) (c.curve.getD 15 0)] := by
    unfold tokensOf
    rw [trimChars_eq_self _ hnws, trimTrailingCommas_getLast _ hlast, hshape]
    simp only [List.append_assoc, List.singleton_append, List.cons_append, List.nil_append]
    rw [splitOnChar_append _ _ _ (comma_not_mem_tokenOf _ _ (hb 0) (hb 8))]
    rw [splitOnChar_append _ _ _ (comma_not_mem_tokenOf _ _ (hb 1) (hb 9))]
    rw [splitOnChar_append _ _ _ (comma_not_mem_tokenOf _ _ (hb 2) (hb 10))]
    rw [splitOnChar_append _ _ _ (comma_not_mem_tokenOf _ _ (hb 3) (hb 11))]
    rw [splitOnChar_append _ _ _ (comma_not_mem_tokenOf _ _ (hb 4) (hb 12))]
    rw [splitOnChar_append _ _ _ (comma_not_mem_tokenOf _ _ (hb 5) (hb 13))]
    rw [splitOnChar_append _ _ _ (comma_not_mem_tokenOf _ _ (hb 6) (hb 14))]
    rw [splitOnChar_not_mem _ _ (comma_not_mem_tokenOf _ _ (hb 7) (hb 15))]
  unfold Curve.from_config_str
  rw [htoks]
  rw [fromTokens_cons_ok _ 0 _ _ _ _ (parsePair_tokenOf _ _ (hb 0) (hb 8)) (by omega)]
  rw [fromTokens_cons_ok _ 1 _ _ _ _ (parsePair_tokenOf _ _ (hb 1) (hb 9)) (by omega)]
  rw [fromTokens_cons_ok _ 2 _ _ _ _ (parsePair_tokenOf _ _ (hb 2) (hb 10)) (by omega)]
  rw [fromTokens_cons_ok _ 3 _ _ _ _ (parsePair_tokenOf _ _ (hb 3) (hb 11)) (by omega)]
  rw [fromTokens_cons_ok _ 4 _ _ _ _ (parsePair_tokenOf _ _ (hb 4) (hb 12)) (by omega)]
  rw [fromTokens_cons_ok _ 5 _ _ _ _ (parsePair_tokenOf _ _ (hb 5) (hb 13)) (by omega)]
  rw [fromTokens_cons_ok _ 6 _ _ _ _ (parsePair_tokenOf _ _ (hb 6) (hb 14)) (by omega)]
  rw [fromTokens_cons_ok _ 7 _ _ _ _ (parsePair_tokenOf _ _ (hb 7) (hb 15)) (by omega)]
  simp only [fromTokens]
  rw [if_neg (by omega)]
  refine congrArg ParseResult.ok ?_
  refine (congrArg Curve.mk ?_).trans rfl
  apply List.ext_getElem
  · simp [h.1, Curve.new]
  · intro n h1 h2
    have h16 : n < 16 := by
      rw [h.1] at h2
      exact h2
    interval_cases n <;>
      simp [List.getElem_set, List.getElem?_eq_getElem h2]

theorem from_config_str_wf (s : List Char) (c : Curve)
    (h : Curve.from_config_str s = .ok c) : c.Wf :=
  fromTokens_wf (tokensOf s) Curve.new 0 c (by decide) h

/-- C1: for every Curve produced by a successful decode of a well-formed
8-token config string, encoding it with `as_config_string` and decoding
the result again yields exactly the same Curve (same 16-byte contents). -/
theorem claim_C1_decode_encode_roundtrip (s : List Char) (c : Curve)
    (hdec : Curve.from_config_str s = .ok c)
    (hlen : (tokensOf s).length = 8) :
    Curve.from_config_str c.as_config_string = .ok c :=
  from_config_of_wf c (from_config_str_wf s c hdec)

/-- C1 witness: the round trip at the repository's own test string. -/
theorem claim_C1_witness :
    Curve.from_config_str
      (Curve.as_config_string ⟨[30, 49, 59, 69, 79, 89, 99, 109,
                                1, 2, 3, 4, 31, 49, 56, 58]⟩) =
      .ok ⟨[30, 49, 59, 69, 79, 89, 99, 109, 1, 2, 3, 4, 31, 49, 56, 58]⟩ :=
  claim_C1_decode_encode_roundtrip
    ['3','0','c',':','1','%',',','4','9','c',':','2','%',',',
     '5','9','c',':','3','%',',','6','9','c',':','4','%',',',
     '7','9','c',':','3','1','%',',','8','9','c',':','4','9','%',',',
     '9','9','c',':','5','6','%',',','1','0','9','c',':','5','8','%']
    ⟨[30, 49, 59, 69, 79, 89, 99, 109, 1, 2, 3, 4, 31, 49, 56, 58]⟩
    (by decide) (by decide)
